import Mathlib

set_option maxRecDepth 4000

/-!
Verification of the midivis Standard-MIDI-File decoder.

The embedded code is `readVariableLengthValue2`, `parseMidiFile`,
`noteNumberToString` and `MidiTrack.ToTrack` from the repository
(`src/unnamed/part_000`; the same decoding logic appears as `diy` in
`src/main.go`).  A byte source (`io.Reader` over a file) is modelled as a
`List Nat` of bytes consumed from the front; Go panics raised during
decoding become constructors of `MidiError`; Go's 64-bit signed `int`
arithmetic is modelled exactly with `wrap64`, which reduces an integer
into the interval `[-2^63, 2^63)`.

Go `Read` semantics that the model reproduces faithfully:
an 1-byte read followed by `check(err)` fails (io.EOF panic) exactly when
the stream is empty; a `k`-byte read into a `make([]byte, k)` buffer whose
error is checked fails only when `k > 0` and the stream is empty, and
otherwise silently delivers at most `k` bytes (short reads at end of file
return no error); a read whose error is ignored (all the header-section
reads after the first) never fails and leaves the unread tail of its
zero-initialised buffer at 0.
-/

/-- Reduction of an unbounded integer into Go's 64-bit signed `int`
range `[-2^63, 2^63)`, used wherever the Go code does `int` arithmetic
that may overflow (`<<` and `+`). -/
def wrap64 (n : Int) : Int := (n + 2 ^ 63) % 2 ^ 64 - 2 ^ 63

/-- Decode-time failures.  Each constructor corresponds to one family of
panic sites in the Go code; the names follow the spec's error taxonomy.
There is no `FormatError` constructor because the code has no panic site
for a chunk-tag mismatch, and no `UnsupportedChannelEvent` constructor
because the code has no panic site for an unrecognised channel event. -/
inductive MidiError
  /-- Raised when `check(err)` panics on `io.EOF`: a required byte was missing. -/
  | truncatedStream
  /-- Raised by `panic("Format not supported")` for a nonzero format field. -/
  | unsupportedFormat
  /-- Raised by `panic("Division Type not supported")` for frame-based division. -/
  | unsupportedDivision
  /-- Raised by `panic("Invalid End of Track Length")`, `panic("Invalid
  Time Signature Length")` or `panic("Invalid Set Tempo Length")`. -/
  | invalidMetaLength
  /-- Raised because `make([]byte, n)` panics when a decoded length is negative. -/
  | lengthOutOfRange
  deriving DecidableEq

/-- Channel-event tag, from the constants `NoteOff MidiNoteType = 0x8`
and `NoteOn MidiNoteType = 0x9`. -/
inductive MidiNoteType
  | NoteOff
  | NoteOn
  deriving DecidableEq

/-- One recorded channel event, from `type MidiNote struct`. -/
structure MidiNote where
  deltaTime : Int
  eventType : MidiNoteType
  channel : Nat
  note : Nat
  velocity : Nat
  deriving DecidableEq

/-- Decoded track-chunk data, from `type MidiTrack struct`. -/
structure MidiTrack where
  notes : List MidiNote
  ppqn : Nat
  deriving DecidableEq

/-- A reconstructed note interval, from `type Note struct`.  The Go
fields are named `on` and `off`; `on` is a Lean keyword, so they are
spelled `onTick` and `offTick` here (the spec's names for them). -/
structure Note where
  onTick : Int
  offTick : Int
  num : Int
  str : String
  vel : Int
  deriving DecidableEq

/-- The reconstructed track, from `type Track struct`.  The `name` and
`bpm` fields are omitted: `name` is a cosmetic copy of the file name and
`bpm` is never assigned by the decoder. -/
structure Track where
  ppqn : Nat
  notes : List Note
  deriving DecidableEq

/-- Note-name table from `noteNumberToString` (the twelve chromatic
names, written as two halves appended for readability). -/
def noteNames : List String :=
  ["C", "C#", "D", "D#", "E", "F"] ++ ["F#", "G", "G#", "A", "A#", "B"]

/-- Rendering of a note number, from `noteNumberToString`:
`fmt.Sprintf("%s%d", notes[noteNumber%12], noteNumber/12)`. -/
def noteNumberToString (noteNumber : Nat) : String :=
  noteNames.getD (noteNumber % 12) "C" ++ toString (noteNumber / 12)

/-- Loop body of `readVariableLengthValue2`: repeatedly
`result = (result << 7) | int(b[0]&0x7F)` until a byte with clear high
bit.  `result << 7` wraps in 64 bits and its low seven bits are zero, so
or-ing in `b & 0x7F` is the same as adding it inside the wrap.  Reading a
byte from an exhausted stream is the `check(err)` panic on `io.EOF`. -/
def readVLQAux (acc : Int) : List Nat → Except MidiError (Int × List Nat)
  | [] => .error .truncatedStream
  | b :: rest =>
    if b % 256 < 128 then
      .ok (wrap64 (acc * 128 + Int.ofNat (b % 128)), rest)
    else
      readVLQAux (wrap64 (acc * 128 + Int.ofNat (b % 128))) rest

/-- Variable-length-quantity decoder, from `readVariableLengthValue2`. -/
def readVariableLengthValue2 (s : List Nat) : Except MidiError (Int × List Nat) :=
  readVLQAux 0 s

/-- One checked `make([]byte, len)` + `dat.Read` + `check(err)` whose
payload is not used: Go errors only when `len > 0` bytes were requested
and none were available, delivers short reads silently, and panics in
`make` when `len` is negative. -/
def readSkipChecked (len : Int) (s : List Nat) : Except MidiError (List Nat) :=
  if len < 0 then .error .lengthOutOfRange
  else if len = 0 then .ok s
  else if s.isEmpty then .error .truncatedStream
  else .ok (s.drop len.toNat)

/-- Outcome of decoding one `<MTrk event>`: a recorded note event, an
event the code reads past without recording, or the end-of-track meta
event that sets `done = true`. -/
inductive EventResult
  | note (n : MidiNote) (rest : List Nat)
  | skip (rest : List Nat)
  | endOfTrack (rest : List Nat)
  deriving DecidableEq

/-- Stream position after a decoded event. -/
def EventResult.rest : EventResult → List Nat
  | .note _ r => r
  | .skip r => r
  | .endOfTrack r => r

/-- Meta-event dispatch (`eventFirstByte[0] == 0xFF` branch): one type
byte, a VLQ length, then the per-type handling of `parseMidiFile`'s
`switch metaEventType[0]`. -/
def handleMeta (s2 : List Nat) : Except MidiError EventResult :=
  match s2 with
  | [] => .error .truncatedStream
  | t :: s3 =>
    match readVariableLengthValue2 s3 with
    | .error e => .error e
    | .ok (len, s4) =>
      if t = 0x03 then
        -- track name: payload read (checked) and logged only
        (readSkipChecked len s4).map EventResult.skip
      else if t = 0x2F then
        -- end of track: length must be 0, sets done = true
        if len ≠ 0 then .error .invalidMetaLength else .ok (.endOfTrack s4)
      else if t = 0x58 then
        -- time signature: length must be 4, four checked 1-byte reads
        if len ≠ 4 then .error .invalidMetaLength
        else
          match s4 with
          | _ :: _ :: _ :: _ :: s5 => .ok (.skip s5)
          | _ => .error .truncatedStream
      else if t = 0x51 then
        -- set tempo: length must be 3, one checked 3-byte read
        if len ≠ 3 then .error .invalidMetaLength
        else (readSkipChecked 3 s4).map EventResult.skip
      else
        -- any other type: payload consumed without interpretation
        (readSkipChecked len s4).map EventResult.skip

/-- Sysex dispatch (`0xF0`/`0xF7` branch): a VLQ length then a checked
read of that many bytes, all discarded. -/
def handleSysex (s2 : List Nat) : Except MidiError EventResult :=
  match readVariableLengthValue2 s2 with
  | .error e => .error e
  | .ok (len, s3) => (readSkipChecked len s3).map EventResult.skip

/-- Channel-event dispatch: `switch midiEventType` on the high nibble of
the status byte.  Only `0x8` and `0x9` have cases; any other nibble falls
through the switch with no data bytes consumed. -/
def handleChannel (deltaTime : Int) (b : Nat) (s2 : List Nat) :
    Except MidiError EventResult :=
  if b / 16 = 0x8 then
    match s2 with
    | note :: velocity :: s3 =>
      .ok (.note ⟨deltaTime, .NoteOff, 0, note, velocity⟩ s3)
    | _ => .error .truncatedStream
  else if b / 16 = 0x9 then
    match s2 with
    | note :: velocity :: s3 =>
      .ok (.note ⟨deltaTime, .NoteOn, 0, note, velocity⟩ s3)
    | _ => .error .truncatedStream
  else
    .ok (.skip s2)

/-- One iteration of `parseMidiFile`'s event loop: a VLQ delta-time, one
checked status byte, then the three-way dispatch on it. -/
def parseOneEvent (s : List Nat) : Except MidiError EventResult :=
  match readVariableLengthValue2 s with
  | .error e => .error e
  | .ok (deltaTime, s1) =>
    match s1 with
    | [] => .error .truncatedStream
    | b :: s2 =>
      if b = 0xFF then handleMeta s2
      else if b = 0xF0 ∨ b = 0xF7 then handleSysex s2
      else handleChannel deltaTime b s2

/-- The `for !done` event loop, fuelled.  Each iteration consumes at
least one byte, so fuel `s.length + 1` always suffices (proved below);
`none` marks fuel exhaustion and is never the value actually taken. -/
def parseEventsLoop : Nat → List Nat → Option (Except MidiError (List MidiNote × List Nat))
  | 0, _ => none
  | fuel + 1, s =>
    match parseOneEvent s with
    | .error e => some (.error e)
    | .ok (.endOfTrack rest) => some (.ok ([], rest))
    | .ok (.note n rest) =>
      match parseEventsLoop fuel rest with
      | none => none
      | some (.error e) => some (.error e)
      | some (.ok (ns, r)) => some (.ok (n :: ns, r))
    | .ok (.skip rest) => parseEventsLoop fuel rest

/-- The event loop of `parseMidiFile`, returning the recorded note events
in stream order together with the unread tail. -/
def parseEvents (s : List Nat) : Except MidiError (List MidiNote × List Nat) :=
  match parseEventsLoop (s.length + 1) s with
  | some r => r
  | none => .error .truncatedStream

/-- Byte `i` of the zero-initialised buffer a header-section read leaves
behind: the stream byte when present, 0 past end of stream. -/
def byteAt (s : List Nat) (i : Nat) : Nat := s.getD i 0 % 256

/-- Value of `binary.BigEndian.Uint16` on the first two buffer bytes. -/
def readUint16BE (s : List Nat) : Nat := byteAt s 0 * 256 + byteAt s 1

/-- Header section of `parseMidiFile` (everything before the event
loop).  The first 4-byte read is checked, so an empty file panics; every
later header read ignores its error.  Neither 4-byte chunk tag ("MThd",
"MTrk") is compared against anything — both are only logged.  On success
it returns the ticks-per-quarter-note division and the stream positioned
at the first track event. -/
def parseHeader (s : List Nat) : Except MidiError (Nat × List Nat) :=
  if s.isEmpty then .error .truncatedStream
  else
    -- header chunk tag (4 bytes, logged) and length (4 bytes, logged)
    let s2 := (s.drop 4).drop 4
    if readUint16BE s2 ≠ 0 then .error .unsupportedFormat
    else
      -- format (2 bytes) and nTracks (2 bytes, logged)
      let s4 := (s2.drop 2).drop 2
      if 128 ≤ byteAt s4 0 then .error .unsupportedDivision
      else
        -- division, then track chunk tag (logged) and track length (logged)
        .ok (byteAt s4 0 * 256 + byteAt s4 1, ((s4.drop 2).drop 4).drop 4)

/-- The whole of `parseMidiFile`: header section, then the event loop,
producing a `MidiTrack` carrying the recorded events and the division. -/
def parseMidiFile (s : List Nat) : Except MidiError MidiTrack :=
  match parseHeader s with
  | .error e => .error e
  | .ok (ppqn, s7) =>
    match parseEvents s7 with
    | .error e => .error e
    | .ok (ns, _) => .ok ⟨ns, ppqn⟩

/-- State threaded through `ToTrack`'s loop: the running absolute-tick
total, the `noteOnMap` pending table and the closed notes so far. -/
structure RState where
  deltaTotal : Int
  noteOnMap : List (Nat × Note)
  notes : List Note
  deriving DecidableEq

/-- Lookup in the model of Go's `map[byte]Note`. -/
def mapLookup (k : Nat) : List (Nat × Note) → Option Note
  | [] => none
  | (k2, v) :: rest => if k2 = k then some v else mapLookup k rest

/-- Insert-or-overwrite in the model of Go's `map[byte]Note`. -/
def mapInsert (k : Nat) (v : Note) : List (Nat × Note) → List (Nat × Note)
  | [] => [(k, v)]
  | (k2, v2) :: rest =>
    if k2 = k then (k, v) :: rest else (k2, v2) :: mapInsert k v rest

/-- Deletion in the model of Go's `map[byte]Note`. -/
def mapErase (k : Nat) : List (Nat × Note) → List (Nat × Note)
  | [] => []
  | (k2, v2) :: rest => if k2 = k then rest else (k2, v2) :: mapErase k rest

/-- Body of `ToTrack`'s `for _, midiNote := range midiTrack.notes` loop:
advance `deltaTotal`, then insert/overwrite on `NoteOn`, and on `NoteOff`
close and append the pending note when one exists, otherwise only report
"Note Off without Note On" (nothing changes but the total). -/
def toTrackStep (st : RState) (e : MidiNote) : RState :=
  let dt := wrap64 (st.deltaTotal + e.deltaTime)
  match e.eventType with
  | .NoteOn =>
    { st with
      deltaTotal := dt
      noteOnMap := mapInsert e.note
        ⟨dt, -1, Int.ofNat e.note, noteNumberToString e.note, Int.ofNat e.velocity⟩
        st.noteOnMap }
  | .NoteOff =>
    match mapLookup e.note st.noteOnMap with
    | some foundNote =>
      { deltaTotal := dt
        noteOnMap := mapErase e.note st.noteOnMap
        notes := st.notes ++ [{ foundNote with offTick := dt }] }
    | none => { st with deltaTotal := dt }

/-- Note-interval reconstruction, from `func (midiTrack *MidiTrack)
ToTrack`.  It is total: no branch can fail. -/
def ToTrack (midiTrack : MidiTrack) : Track :=
  let st := midiTrack.notes.foldl toTrackStep ⟨0, [], []⟩
  ⟨midiTrack.ppqn, st.notes⟩

/-- Spec-side predicate for claim C3's wording: the output notes are
sorted by non-decreasing `onTick`. -/
abbrev onTicksSorted (t : Track) : Prop :=
  t.notes.Pairwise (fun a b => a.onTick ≤ b.onTick)

/-- Spec-side predicate for the amended C3: the output notes are sorted
by non-decreasing `offTick` (the order in which they were closed). -/
abbrev offTicksSorted (t : Track) : Prop :=
  t.notes.Pairwise (fun a b => a.offTick ≤ b.offTick)

/-- Spec-side predicate for claim C7's wording: every closed note has
`offTick > onTick`. -/
abbrev notesStrictlyPositive (t : Track) : Prop :=
  ∀ n ∈ t.notes, n.onTick < n.offTick

/-- Invariant carried through `ToTrack`'s loop when delta-times are
non-negative and the running total stays in signed-64 range: the total
is non-negative, every pending note began at or before the current tick,
every closed note is well-formed and closed at or before the current
tick, and the closed notes are in closing order. -/
def StateOK (st : RState) : Prop :=
  0 ≤ st.deltaTotal ∧
  (∀ p ∈ st.noteOnMap, p.2.onTick ≤ st.deltaTotal) ∧
  (∀ n ∈ st.notes, n.onTick ≤ n.offTick ∧ n.offTick ≤ st.deltaTotal) ∧
  st.notes.Pairwise (fun a b => a.offTick ≤ b.offTick)

/-- Standard big-endian VLQ encoding, continuation bytes (high bit set)
for every 7-bit group but the last.  `vlqEncodeCore m` encodes the
groups above the least-significant one.  This definition follows the
spec's words ("the standard VLQ encoding"); the repository contains no
encoder. -/
def vlqEncodeCore : Nat → List Nat
  | 0 => []
  | m + 1 => vlqEncodeCore ((m + 1) / 128) ++ [(m + 1) % 128 + 128]
decreasing_by exact Nat.div_lt_self (Nat.succ_pos m) (by omega)

/-- Standard VLQ encoding of a non-negative integer. -/
def vlqEncode (n : Nat) : List Nat := vlqEncodeCore (n / 128) ++ [n % 128]

deriving instance DecidableEq for Except

/-- Concrete input for claim C1, the spec's minimal-track scenario: a
format-0 header with division 480, an "MTrk" chunk, then delta 0,
note-on(60, 100), delta 480 (VLQ `83 60`), note-off(60, 0), delta 0,
end-of-track meta. -/
def c1Bytes : List Nat :=
  [77, 84, 104, 100, 0, 0, 0, 6, 0, 0, 0, 1, 1, 224,
   77, 84, 114, 107, 0, 0, 0, 13,
   0x00, 0x90, 0x3C, 0x64, 0x83, 0x60, 0x80, 0x3C, 0x00, 0x00, 0xFF, 0x2F, 0x00]

/-- Concrete input for claim C2: the track is delta 0, program change
`C0 05` (one data byte), delta 0, note-on(60, 100), delta 480,
note-off(60, 0), delta 0, end-of-track. -/
def c2Bytes : List Nat :=
  [77, 84, 104, 100, 0, 0, 0, 6, 0, 0, 0, 1, 1, 224,
   77, 84, 114, 107, 0, 0, 0, 16,
   0x00, 0xC0, 0x05, 0x00, 0x90, 0x3C, 0x64, 0x83, 0x60,
   0x80, 0x3C, 0x00, 0x00, 0xFF, 0x2F, 0x00]

/-- Concrete input for claim C3: two nested notes — note-on(60) at tick
0, note-on(61) at tick 10, note-off(61) at tick 20, note-off(60) at tick
30, end-of-track. -/
def c3cexBytes : List Nat :=
  [77, 84, 104, 100, 0, 0, 0, 6, 0, 0, 0, 1, 1, 224,
   77, 84, 114, 107, 0, 0, 0, 20,
   0x00, 0x90, 0x3C, 0x64, 0x0A, 0x90, 0x3D, 0x64, 0x0A, 0x80, 0x3D, 0x00,
   0x0A, 0x80, 0x3C, 0x00, 0x00, 0xFF, 0x2F, 0x00]

/-- The track the pipeline reconstructs from `c3cexBytes`: the inner
note (on 10) is closed first and precedes the outer note (on 0). -/
def c3cexTrack : Track := ⟨480, [⟨10, 20, 61, "C#5", 100⟩, ⟨0, 30, 60, "C5", 100⟩]⟩

/-- Concrete event list used to witness the amended C3 and C7 theorems:
two non-nested notes with non-negative delta-times. -/
def c3WitnessMt : MidiTrack :=
  ⟨[⟨0, .NoteOn, 0, 60, 100⟩, ⟨480, .NoteOff, 0, 60, 0⟩,
    ⟨0, .NoteOn, 0, 62, 90⟩, ⟨120, .NoteOff, 0, 62, 0⟩], 480⟩

/-- Concrete event list used to witness the amended C7 theorem: one
note opened at tick 3 and closed at tick 10. -/
def c7WitnessMt : MidiTrack :=
  ⟨[⟨3, .NoteOn, 0, 72, 110⟩, ⟨7, .NoteOff, 0, 72, 0⟩], 96⟩

/-- Concrete input for claim C5: the same well-formed file as `c1Bytes`
except that the header chunk tag is "XXXX" and the track chunk tag is
"YYYY". -/
def c5cexBytes : List Nat :=
  [88, 88, 88, 88, 0, 0, 0, 6, 0, 0, 0, 1, 1, 224,
   89, 89, 89, 89, 0, 0, 0, 13,
   0x00, 0x90, 0x3C, 0x64, 0x83, 0x60, 0x80, 0x3C, 0x00, 0x00, 0xFF, 0x2F, 0x00]

/-- Concrete input for claim C7: note-on(60, 100) at delta 0 immediately
followed by note-off(60, 0) at delta 0, then end-of-track — a
zero-length note. -/
def c7cexBytes : List Nat :=
  [77, 84, 104, 100, 0, 0, 0, 6, 0, 0, 0, 1, 1, 224,
   77, 84, 114, 107, 0, 0, 0, 12,
   0x00, 0x90, 0x3C, 0x64, 0x00, 0x80, 0x3C, 0x00, 0x00, 0xFF, 0x2F, 0x00]

/-- The track the pipeline reconstructs from `c7cexBytes`: one note with
`offTick = onTick = 0`. -/
def c7cexTrack : Track := ⟨480, [⟨0, 0, 60, "C5", 100⟩]⟩

/-- Concrete input for claim C10: note-on(60, 100) at delta 0, then at
delta 480 a note-on(60, velocity 0) — the running-status convention for
ending the note — then end-of-track. -/
def c10Bytes : List Nat :=
  [77, 84, 104, 100, 0, 0, 0, 6, 0, 0, 0, 1, 1, 224,
   77, 84, 114, 107, 0, 0, 0, 13,
   0x00, 0x90, 0x3C, 0x64, 0x83, 0x60, 0x90, 0x3C, 0x00, 0x00, 0xFF, 0x2F, 0x00]

/-- C1 (confirmed).  Decoding the byte stream with delta 0,
note-on(60, 100), delta 480, note-off(60, 0), delta 0, end-of-track meta
and reconstructing yields a track with exactly one Note: onTick 0,
offTick 480, noteNumber 60, velocity 100. -/
theorem c1_minimal_track_scenario :
    (parseMidiFile c1Bytes).map ToTrack = .ok ⟨480, [⟨0, 480, 60, "C5", 100⟩]⟩ := by
  decide

/-- C2 (code bug, evaluated at the failing input).  The claim requires
a program-change event (high nibble 0xC, one data byte) to have its data
byte consumed or to fail with `UnsupportedChannelEvent`.  The code does
neither: on `c2Bytes` the data byte `05` is left in the stream and is
misread as the next event's delta-time, the note-on that follows is
swallowed as garbage, and the decode ends with an orphan note-off only —
the reconstructed track is empty instead of holding one note from tick 0
to tick 480. -/
theorem c2_channel_event_data_misread :
    parseMidiFile c2Bytes = .ok ⟨[⟨480, .NoteOff, 0, 60, 0⟩], 480⟩ ∧
    (parseMidiFile c2Bytes).map ToTrack = .ok ⟨480, []⟩ :=
  ⟨by decide, by decide⟩

/-- C3 counterexample.  The claim says the reconstructed note list is
sorted by non-decreasing onTick; on the nested-note input `c3cexBytes`
the pipeline returns `c3cexTrack`, whose onTicks are 10 then 0. -/
theorem c3_counterexample :
    (parseMidiFile c3cexBytes).map ToTrack = .ok c3cexTrack ∧
    ¬ onTicksSorted c3cexTrack :=
  ⟨by decide, by decide⟩

/-- C5 counterexample.  The claim says a file whose first four bytes are
not "MThd" (or whose track tag is not "MTrk") fails with `FormatError`
and no event decoding is performed; on `c5cexBytes`, whose tags are
"XXXX" and "YYYY", the decoder succeeds and decodes both note events. -/
theorem c5_counterexample :
    parseMidiFile c5cexBytes =
      .ok ⟨[⟨0, .NoteOn, 0, 60, 100⟩, ⟨480, .NoteOff, 0, 60, 0⟩], 480⟩ := by
  decide

/-- C7 counterexample.  The claim says every closed note satisfies
`offTick > onTick`; on `c7cexBytes` (note-off at total delta 0 after its
note-on) the pipeline returns `c7cexTrack`, whose single note has
`offTick = onTick = 0`. -/
theorem c7_counterexample :
    (parseMidiFile c7cexBytes).map ToTrack = .ok c7cexTrack ∧
    ¬ notesStrictlyPositive c7cexTrack :=
  ⟨by decide, by decide⟩

/-- A successful VLQ read consumes at least one byte. -/
theorem readVLQAux_rest_lt : ∀ (s : List Nat) (acc d : Int) (rest : List Nat),
    readVLQAux acc s = .ok (d, rest) → rest.length < s.length := by
  intro s
  induction s with
  | nil => intro acc d rest h; simp [readVLQAux] at h
  | cons b r ih =>
    intro acc d rest h
    rw [readVLQAux] at h
    split at h
    · simp only [Except.ok.injEq, Prod.mk.injEq] at h
      obtain ⟨-, rfl⟩ := h
      simp
    · have hlt := ih _ _ _ h
      simp only [List.length_cons]
      omega

/-- A successful checked skip never lengthens the stream. -/
theorem readSkipChecked_rest_le (len : Int) (s rest : List Nat)
    (h : readSkipChecked len s = .ok rest) : rest.length ≤ s.length := by
  unfold readSkipChecked at h
  repeat' split at h
  all_goals first
    | (simp at h
       done)
    | (simp only [Except.ok.injEq] at h
       subst h
       try simp only [List.length_drop]
       omega)

/-- Mapping `EventResult.skip` over a skip result never produces the
end-of-track marker. -/
theorem map_skip_ne_eot (x : Except MidiError (List Nat)) (r : List Nat) :
    x.map EventResult.skip ≠ .ok (.endOfTrack r) := by
  cases x <;> simp [Except.map]

/-- Inversion for a skip result built with `Except.map`. -/
theorem map_skip_ok (x : Except MidiError (List Nat)) (r : EventResult)
    (h : x.map EventResult.skip = .ok r) : ∃ s5, x = .ok s5 ∧ r = .skip s5 := by
  cases x with
  | error e => simp [Except.map] at h
  | ok s5 =>
    simp only [Except.map, Except.ok.injEq] at h
    exact ⟨s5, rfl, h.symm⟩

/-- A successfully decoded meta event consumes the type byte, so its
rest is strictly shorter than the stream after the 0xFF byte. -/
theorem handleMeta_rest_lt (s2 : List Nat) (r : EventResult)
    (h : handleMeta s2 = .ok r) : r.rest.length < s2.length := by
  unfold handleMeta at h
  split at h
  · simp at h
  next t s3 =>
    split at h
    · simp at h
    next len s4 hvlq =>
      have hs4 : s4.length < s3.length := readVLQAux_rest_lt _ _ _ _ hvlq
      simp only [List.length_cons]
      repeat' split at h
      all_goals
        first
        | (simp at h
           done)
        | (obtain ⟨s5, hx, rfl⟩ := map_skip_ok _ _ h
           have h5 := readSkipChecked_rest_le _ _ _ hx
           simp only [EventResult.rest]
           omega)
        | (simp only [Except.ok.injEq] at h
           subst h
           simp only [EventResult.rest, List.length_cons] at *
           omega)

/-- A successfully decoded sysex event consumes its VLQ length. -/
theorem handleSysex_rest_lt (s2 : List Nat) (r : EventResult)
    (h : handleSysex s2 = .ok r) : r.rest.length < s2.length := by
  unfold handleSysex at h
  split at h
  · simp at h
  next len s3 hvlq =>
    have hs3 : s3.length < s2.length := readVLQAux_rest_lt _ _ _ _ hvlq
    cases hsk : readSkipChecked len s3 with
    | error e => rw [hsk] at h; simp [Except.map] at h
    | ok s4 =>
      rw [hsk] at h
      simp only [Except.map, Except.ok.injEq] at h
      subst h
      have := readSkipChecked_rest_le _ _ _ hsk
      simp only [EventResult.rest]
      omega

/-- A channel event never consumes more than the bytes after its status
byte, and never fewer than zero: its rest is at most the input. -/
theorem handleChannel_rest_le (deltaTime : Int) (b : Nat) (s2 : List Nat)
    (r : EventResult) (h : handleChannel deltaTime b s2 = .ok r) :
    r.rest.length ≤ s2.length := by
  unfold handleChannel at h
  split at h
  · split at h
    next note velocity s3 =>
      simp only [Except.ok.injEq] at h
      subst h
      simp only [EventResult.rest, List.length_cons]
      omega
    next => simp at h
  · split at h
    · split at h
      next note velocity s3 =>
        simp only [Except.ok.injEq] at h
        subst h
        simp only [EventResult.rest, List.length_cons]
        omega
      next => simp at h
    · simp only [Except.ok.injEq] at h
      subst h
      exact Nat.le_refl _

/-- Every successfully decoded event consumes at least one byte. -/
theorem parseOneEvent_rest_lt (s : List Nat) (r : EventResult)
    (h : parseOneEvent s = .ok r) : r.rest.length < s.length := by
  unfold parseOneEvent at h
  split at h
  · simp at h
  next d s1 hvlq =>
    have h1 : s1.length < s.length := readVLQAux_rest_lt _ _ _ _ hvlq
    split at h
    · simp at h
    next b s2 =>
      simp only [List.length_cons] at h1
      split at h
      · have := handleMeta_rest_lt _ _ h
        omega
      · split at h
        · have := handleSysex_rest_lt _ _ h
          omega
        · have := handleChannel_rest_le _ _ _ _ h
          omega

/-- Fuel `s.length + 1` (indeed any fuel above `s.length`) is enough for
the event loop: it never runs out of fuel on a finite stream. -/
theorem parseEventsLoop_total : ∀ (fuel : Nat) (s : List Nat),
    s.length < fuel → parseEventsLoop fuel s ≠ none := by
  intro fuel
  induction fuel with
  | zero => intro s h; omega
  | succ f ih =>
    intro s hs
    rw [parseEventsLoop]
    split
    · simp
    · simp
    next n rest heq =>
      have hr : rest.length < f := by
        have := parseOneEvent_rest_lt _ _ heq
        simp only [EventResult.rest] at this
        omega
      cases hrec : parseEventsLoop f rest with
      | none => exact absurd hrec (ih rest hr)
      | some v =>
        rcases v with e | ⟨ns, r2⟩ <;> simp [hrec]
    next rest heq =>
      have hr : rest.length < f := by
        have := parseOneEvent_rest_lt _ _ heq
        simp only [EventResult.rest] at this
        omega
      exact ih rest hr

/-- A successful VLQ read leaves a suffix of its input stream. -/
theorem readVLQAux_rest_suffix : ∀ (s : List Nat) (acc d : Int) (rest : List Nat),
    readVLQAux acc s = .ok (d, rest) → rest.IsSuffix s := by
  intro s
  induction s with
  | nil => intro acc d rest h; simp [readVLQAux] at h
  | cons b r ih =>
    intro acc d rest h
    rw [readVLQAux] at h
    split at h
    · simp only [Except.ok.injEq, Prod.mk.injEq] at h
      obtain ⟨-, rfl⟩ := h
      exact List.suffix_cons b r
    · exact (ih _ _ _ h).trans (List.suffix_cons b r)

/-- A successful checked skip leaves a suffix of its input stream. -/
theorem readSkipChecked_rest_suffix (len : Int) (s rest : List Nat)
    (h : readSkipChecked len s = .ok rest) : rest.IsSuffix s := by
  unfold readSkipChecked at h
  repeat' split at h
  all_goals first
    | (simp at h
       done)
    | (simp only [Except.ok.injEq] at h
       subst h
       first
         | exact List.suffix_refl _
         | exact List.drop_suffix _ _)

/-- A successfully decoded meta event leaves a suffix of the stream
positioned after the 0xFF byte. -/
theorem handleMeta_rest_suffix (s2 : List Nat) (r : EventResult)
    (h : handleMeta s2 = .ok r) : r.rest.IsSuffix s2 := by
  unfold handleMeta at h
  split at h
  · simp at h
  next t s3 =>
    have hs3 : s3.IsSuffix (t :: s3) := List.suffix_cons t s3
    split at h
    · simp at h
    next len s4 hvlq =>
      have hs4 : s4.IsSuffix s3 := readVLQAux_rest_suffix _ _ _ _ hvlq
      repeat' split at h
      all_goals first
        | (simp at h
           done)
        | (obtain ⟨s5, hx, rfl⟩ := map_skip_ok _ _ h
           exact ((readSkipChecked_rest_suffix _ _ _ hx).trans hs4).trans hs3)
        | (simp only [Except.ok.injEq] at h
           subst h
           simp only [EventResult.rest]
           first
             | exact hs4.trans hs3
             | (rename_i a b c d s5
                exact (show s5.IsSuffix (a :: b :: c :: d :: s5) from
                  ⟨[a, b, c, d], rfl⟩).trans (hs4.trans hs3)))

/-- A successfully decoded sysex event leaves a suffix of the stream
positioned after the status byte. -/
theorem handleSysex_rest_suffix (s2 : List Nat) (r : EventResult)
    (h : handleSysex s2 = .ok r) : r.rest.IsSuffix s2 := by
  unfold handleSysex at h
  split at h
  · simp at h
  next len s3 hvlq =>
    obtain ⟨s5, hx, rfl⟩ := map_skip_ok _ _ h
    exact (readSkipChecked_rest_suffix _ _ _ hx).trans (readVLQAux_rest_suffix _ _ _ _ hvlq)

/-- A successfully decoded channel event leaves a suffix of the stream
positioned after the status byte. -/
theorem handleChannel_rest_suffix (deltaTime : Int) (b : Nat) (s2 : List Nat)
    (r : EventResult) (h : handleChannel deltaTime b s2 = .ok r) :
    r.rest.IsSuffix s2 := by
  unfold handleChannel at h
  split at h
  · split at h
    next note velocity s3 =>
      simp only [Except.ok.injEq] at h
      subst h
      exact (List.suffix_cons _ _).trans (List.suffix_cons _ _)
    next => simp at h
  · split at h
    · split at h
      next note velocity s3 =>
        simp only [Except.ok.injEq] at h
        subst h
        exact (List.suffix_cons _ _).trans (List.suffix_cons _ _)
      next => simp at h
    · simp only [Except.ok.injEq] at h
      subst h
      exact List.suffix_refl _

/-- Every successfully decoded event leaves a suffix of the input
stream: the decoder only ever moves forward. -/
theorem parseOneEvent_rest_suffix (s : List Nat) (r : EventResult)
    (h : parseOneEvent s = .ok r) : r.rest.IsSuffix s := by
  unfold parseOneEvent at h
  split at h
  · simp at h
  next d s1 hvlq =>
    have h1 : s1.IsSuffix s := readVLQAux_rest_suffix _ _ _ _ hvlq
    split at h
    · simp at h
    next b s2 =>
      have h2 : s2.IsSuffix s := (List.suffix_cons b s2).trans h1
      split at h
      · exact (handleMeta_rest_suffix _ _ h).trans h2
      · split at h
        · exact (handleSysex_rest_suffix _ _ h).trans h2
        · exact (handleChannel_rest_suffix _ _ _ _ h).trans h2

/-- The loop can return the event list only because a reachable suffix
of its input stream decoded as the end-of-track meta event, and the
loop's final position is exactly that event's rest: there is no other
way for `done` to be set. -/
theorem parseEventsLoop_ok_eot : ∀ (fuel : Nat) (s : List Nat)
    (ns : List MidiNote) (r : List Nat),
    parseEventsLoop fuel s = some (.ok (ns, r)) →
    ∃ s2, s2.IsSuffix s ∧ parseOneEvent s2 = .ok (.endOfTrack r) := by
  intro fuel
  induction fuel with
  | zero => intro s ns r h; simp [parseEventsLoop] at h
  | succ f ih =>
    intro s ns r h
    rw [parseEventsLoop] at h
    split at h
    · simp at h
    next rest heq =>
      simp only [Option.some.injEq, Except.ok.injEq, Prod.mk.injEq] at h
      obtain ⟨-, rfl⟩ := h
      exact ⟨s, List.suffix_refl s, heq⟩
    next n rest heq =>
      have hrs : rest.IsSuffix s := by
        have hsuf := parseOneEvent_rest_suffix s _ heq
        simpa [EventResult.rest] using hsuf
      cases hrec : parseEventsLoop f rest with
      | none => rw [hrec] at h; simp at h
      | some v =>
        rw [hrec] at h
        rcases v with e | ⟨ns2, r2⟩
        · simp at h
        · simp only [Option.some.injEq, Except.ok.injEq, Prod.mk.injEq] at h
          obtain ⟨-, rfl⟩ := h
          obtain ⟨s2, hsuf2, heot⟩ := ih rest ns2 r2 hrec
          exact ⟨s2, hsuf2.trans hrs, heot⟩
    next rest heq =>
      have hrs : rest.IsSuffix s := by
        have hsuf := parseOneEvent_rest_suffix s _ heq
        simpa [EventResult.rest] using hsuf
      obtain ⟨s2, hsuf2, heot⟩ := ih rest ns r h
      exact ⟨s2, hsuf2.trans hrs, heot⟩

/-- An exhausted stream makes the loop stop with `truncatedStream`
for every positive fuel — never a silent success. -/
theorem parseEventsLoop_empty (fuel : Nat) (hf : 0 < fuel) :
    parseEventsLoop fuel [] = some (.error .truncatedStream) := by
  cases fuel with
  | zero => omega
  | succ f => rfl

/-- When an event decodes to the end-of-track marker, the stream really
did contain a `FF 2F` meta event whose VLQ length decoded to 0, right
after the delta-time. -/
theorem parseOneEvent_eot_shape (s : List Nat) (r : List Nat)
    (h : parseOneEvent s = .ok (.endOfTrack r)) :
    ∃ d s2, readVariableLengthValue2 s = .ok (d, 0xFF :: 0x2F :: s2) ∧
      readVariableLengthValue2 s2 = .ok (0, r) := by
  unfold parseOneEvent at h
  split at h
  · simp at h
  next d s1 hvlq =>
    split at h
    · simp at h
    next b s2 =>
      split at h
      next hb =>
        subst hb
        unfold handleMeta at h
        split at h
        · simp at h
        next t s3 =>
          split at h
          · simp at h
          next len s4 hlen =>
            split at h
            · exact absurd h (map_skip_ne_eot _ _)
            · split at h
              next ht =>
                subst ht
                split at h
                · simp at h
                next hlen0 =>
                  simp only [Decidable.not_not] at hlen0
                  subst hlen0
                  simp only [Except.ok.injEq, EventResult.endOfTrack.injEq] at h
                  subst h
                  exact ⟨d, s3, hvlq, hlen⟩
              · split at h
                · split at h
                  · simp at h
                  · split at h <;> simp at h
                · split at h
                  · split at h
                    · simp at h
                    · exact absurd h (map_skip_ne_eot _ _)
                  · exact absurd h (map_skip_ne_eot _ _)
      · split at h
        · -- sysex events never end the loop
          unfold handleSysex at h
          split at h
          · simp at h
          · exact absurd h (map_skip_ne_eot _ _)
        · -- channel events never end the loop
          unfold handleChannel at h
          split at h
          · split at h <;> simp at h
          · split at h
            · split at h <;> simp at h
            · simp at h

/-- An end-of-track meta event whose VLQ length is nonzero makes the
event decoder fail with `invalidMetaLength`. -/
theorem parseOneEvent_eot_badlen (s s2 s3 : List Nat) (d len : Int)
    (h1 : readVariableLengthValue2 s = .ok (d, 0xFF :: 0x2F :: s2))
    (h2 : readVariableLengthValue2 s2 = .ok (len, s3))
    (hne : len ≠ 0) :
    parseOneEvent s = .error .invalidMetaLength := by
  unfold parseOneEvent
  rw [h1]
  simp only [handleMeta, h2]
  norm_num [hne]

/-- C9 (confirmed).  A `NoteOff` whose note number has no pending entry
changes nothing but the running delta total: the note list and the
pending-notes table are returned unchanged, and no error can arise
(`toTrackStep` is total). -/
theorem c9_orphan_noteoff_ignored (st : RState) (e : MidiNote)
    (het : e.eventType = .NoteOff)
    (hnone : mapLookup e.note st.noteOnMap = none) :
    toTrackStep st e = { st with deltaTotal := wrap64 (st.deltaTotal + e.deltaTime) } := by
  simp [toTrackStep, het, hnone]

/-- Witness for `c9_orphan_noteoff_ignored` at a concrete state holding
a pending note 61 and a closed-notes list, hit by an orphan off for 60. -/
theorem c9_witness :
    toTrackStep ⟨5, [(61, ⟨0, -1, 61, "C#5", 90⟩)], [⟨0, 2, 59, "B4", 80⟩]⟩
        ⟨3, .NoteOff, 0, 60, 0⟩ =
      { RState.mk 5 [(61, ⟨0, -1, 61, "C#5", 90⟩)] [⟨0, 2, 59, "B4", 80⟩] with
        deltaTotal := wrap64 (5 + 3) } :=
  c9_orphan_noteoff_ignored ⟨5, [(61, ⟨0, -1, 61, "C#5", 90⟩)], [⟨0, 2, 59, "B4", 80⟩]⟩
    ⟨3, .NoteOff, 0, 60, 0⟩ rfl (by decide)

/-- The wrap `wrap64` is the identity on values already in signed-64 range. -/
theorem wrap64_eq_self (x : Int) (h0 : 0 ≤ x) (h1 : x < 2 ^ 63) : wrap64 x = x := by
  unfold wrap64
  omega

/-- Every entry of the pending table after an insert is the new entry or
an old entry. -/
theorem mapInsert_mem (k : Nat) (v : Note) :
    ∀ (l : List (Nat × Note)) (p : Nat × Note),
      p ∈ mapInsert k v l → p = (k, v) ∨ p ∈ l := by
  intro l
  induction l with
  | nil =>
    intro p hp
    rw [mapInsert, List.mem_singleton] at hp
    exact Or.inl hp
  | cons q rest ih =>
    intro p hp
    obtain ⟨k2, v2⟩ := q
    rw [mapInsert] at hp
    split at hp
    · rw [List.mem_cons] at hp
      rcases hp with hp | hp
      · exact Or.inl hp
      · exact Or.inr (List.mem_cons_of_mem _ hp)
    · rw [List.mem_cons] at hp
      rcases hp with hp | hp
      · exact Or.inr (by rw [hp]; exact List.mem_cons_self _ _)
      · rcases ih p hp with h1 | h1
        · exact Or.inl h1
        · exact Or.inr (List.mem_cons_of_mem _ h1)

/-- A successful lookup returns an entry of the table. -/
theorem mapLookup_mem (k : Nat) (v : Note) :
    ∀ (l : List (Nat × Note)), mapLookup k l = some v → (k, v) ∈ l := by
  intro l
  induction l with
  | nil => intro h; simp [mapLookup] at h
  | cons q rest ih =>
    intro h
    obtain ⟨k2, v2⟩ := q
    rw [mapLookup] at h
    split at h
    next heq =>
      simp only [Option.some.injEq] at h
      subst h
      subst heq
      exact List.mem_cons_self _ _
    next => exact List.mem_cons_of_mem _ (ih h)

/-- Every entry surviving a deletion was an entry before it. -/
theorem mapErase_subset (k : Nat) :
    ∀ (l : List (Nat × Note)) (p : Nat × Note), p ∈ mapErase k l → p ∈ l := by
  intro l
  induction l with
  | nil => intro p hp; simp [mapErase] at hp
  | cons q rest ih =>
    intro p hp
    obtain ⟨k2, v2⟩ := q
    rw [mapErase] at hp
    split at hp
    · exact List.mem_cons_of_mem _ hp
    · rw [List.mem_cons] at hp
      rcases hp with hp | hp
      · rw [hp]; exact List.mem_cons_self _ _
      · exact List.mem_cons_of_mem _ (ih p hp)

/-- One `ToTrack` loop step preserves the invariant and advances the
running total by exactly the event's delta-time (no wrap can occur
inside the given bounds). -/
theorem toTrackStep_preserves (st : RState) (e : MidiNote)
    (hok : StateOK st) (hd : 0 ≤ e.deltaTime)
    (hb : st.deltaTotal + e.deltaTime < 2 ^ 63) :
    StateOK (toTrackStep st e) ∧
      (toTrackStep st e).deltaTotal = st.deltaTotal + e.deltaTime := by
  obtain ⟨h0, hmap, hnotes, hsort⟩ := hok
  have hw : wrap64 (st.deltaTotal + e.deltaTime) = st.deltaTotal + e.deltaTime :=
    wrap64_eq_self _ (by omega) hb
  cases het : e.eventType with
  | NoteOn =>
    have hstep : toTrackStep st e =
        ⟨st.deltaTotal + e.deltaTime,
         mapInsert e.note
           ⟨st.deltaTotal + e.deltaTime, -1, Int.ofNat e.note,
            noteNumberToString e.note, Int.ofNat e.velocity⟩ st.noteOnMap,
         st.notes⟩ := by
      simp [toTrackStep, het, hw]
    rw [hstep]
    refine ⟨⟨?_, ?_, ?_, ?_⟩, rfl⟩
    · show 0 ≤ st.deltaTotal + e.deltaTime
      omega
    · intro p hp
      show p.2.onTick ≤ st.deltaTotal + e.deltaTime
      rcases mapInsert_mem _ _ _ _ hp with h1 | h1
      · rw [h1]
      · have := hmap p h1
        omega
    · intro n hn
      have h2 := hnotes n hn
      refine ⟨h2.1, ?_⟩
      show n.offTick ≤ st.deltaTotal + e.deltaTime
      omega
    · exact hsort
  | NoteOff =>
    cases hl : mapLookup e.note st.noteOnMap with
    | some foundNote =>
      have hmem : (e.note, foundNote) ∈ st.noteOnMap := mapLookup_mem _ _ _ hl
      have hfd : foundNote.onTick ≤ st.deltaTotal := hmap _ hmem
      have hstep : toTrackStep st e =
          ⟨st.deltaTotal + e.deltaTime,
           mapErase e.note st.noteOnMap,
           st.notes ++ [{ foundNote with offTick := st.deltaTotal + e.deltaTime }]⟩ := by
        simp [toTrackStep, het, hl, hw]
      rw [hstep]
      refine ⟨⟨?_, ?_, ?_, ?_⟩, rfl⟩
      · show 0 ≤ st.deltaTotal + e.deltaTime
        omega
      · intro p hp
        show p.2.onTick ≤ st.deltaTotal + e.deltaTime
        have := hmap p (mapErase_subset _ _ _ hp)
        omega
      · intro n hn
        rw [List.mem_append, List.mem_singleton] at hn
        rcases hn with hn | hn
        · have h2 := hnotes n hn
          refine ⟨h2.1, ?_⟩
          show n.offTick ≤ st.deltaTotal + e.deltaTime
          omega
        · rw [hn]
          refine ⟨?_, ?_⟩
          · show foundNote.onTick ≤ st.deltaTotal + e.deltaTime
            omega
          · show st.deltaTotal + e.deltaTime ≤ st.deltaTotal + e.deltaTime
            omega
      · show (st.notes ++ [{ foundNote with offTick := st.deltaTotal + e.deltaTime }]).Pairwise
          (fun (a b : Note) => a.offTick ≤ b.offTick)
        rw [List.pairwise_append]
        refine ⟨hsort, List.pairwise_singleton _ _, ?_⟩
        intro a ha b hb2
        rw [List.mem_singleton] at hb2
        rw [hb2]
        show a.offTick ≤ st.deltaTotal + e.deltaTime
        have := hnotes a ha
        omega
    | none =>
      have hstep : toTrackStep st e =
          ⟨st.deltaTotal + e.deltaTime, st.noteOnMap, st.notes⟩ := by
        simp [toTrackStep, het, hl, hw]
      rw [hstep]
      refine ⟨⟨?_, ?_, ?_, ?_⟩, rfl⟩
      · show 0 ≤ st.deltaTotal + e.deltaTime
        omega
      · intro p hp
        show p.2.onTick ≤ st.deltaTotal + e.deltaTime
        have := hmap p hp
        omega
      · intro n hn
        have h2 := hnotes n hn
        refine ⟨h2.1, ?_⟩
        show n.offTick ≤ st.deltaTotal + e.deltaTime
        omega
      · exact hsort

/-- Folding the loop over an event list with non-negative delta-times
whose sum stays in signed-64 range preserves the invariant. -/
theorem foldl_toTrackStep_ok : ∀ (l : List MidiNote) (st : RState),
    StateOK st → (∀ e ∈ l, 0 ≤ e.deltaTime) →
    st.deltaTotal + (l.map (fun e => e.deltaTime)).sum < 2 ^ 63 →
    StateOK (l.foldl toTrackStep st) := by
  intro l
  induction l with
  | nil => intro st h _ _; simpa using h
  | cons e rest ih =>
    intro st hok hd hb
    have hd0 : 0 ≤ e.deltaTime := hd e (List.mem_cons_self _ _)
    have hrest0 : 0 ≤ (rest.map (fun e => e.deltaTime)).sum := by
      apply List.sum_nonneg
      intro x hx
      obtain ⟨e2, he2, rfl⟩ := List.mem_map.mp hx
      exact hd e2 (List.mem_cons_of_mem _ he2)
    simp only [List.map_cons, List.sum_cons] at hb
    obtain ⟨hok2, hdt⟩ := toTrackStep_preserves st e hok hd0 (by omega)
    simp only [List.foldl_cons]
    apply ih _ hok2 (fun e2 he2 => hd e2 (List.mem_cons_of_mem _ he2))
    rw [hdt]
    omega

/-- The initial reconstruction state satisfies the invariant. -/
theorem initState_ok : StateOK ⟨0, [], []⟩ := by
  refine ⟨le_refl 0, ?_, ?_, List.Pairwise.nil⟩ <;> intro p hp <;> simp at hp

/-- C3 (corrected).  The reconstructed note list is ordered by the tick
at which each note was closed: it is sorted by non-decreasing `offTick`,
provided every delta-time is non-negative and their sum stays below
`2^63` (both automatic for VLQ-decoded deltas of at most nine bytes).
Sortedness by `onTick`, as the claim states it, fails on nested notes
(see the counterexample). -/
theorem c3_sorted_by_offTick (mt : MidiTrack)
    (h1 : ∀ e ∈ mt.notes, 0 ≤ e.deltaTime)
    (h2 : (mt.notes.map (fun e => e.deltaTime)).sum < 2 ^ 63) :
    offTicksSorted (ToTrack mt) := by
  have h := foldl_toTrackStep_ok mt.notes ⟨0, [], []⟩ initState_ok h1 (by simpa using h2)
  exact h.2.2.2

/-- Witness for `c3_sorted_by_offTick` at the concrete event list
`c3WitnessMt`. -/
theorem c3_witness :
    (∀ e ∈ c3WitnessMt.notes, 0 ≤ e.deltaTime) ∧
    (c3WitnessMt.notes.map (fun e => e.deltaTime)).sum < 2 ^ 63 ∧
    offTicksSorted (ToTrack c3WitnessMt) :=
  ⟨by decide, by decide, c3_sorted_by_offTick c3WitnessMt (by decide) (by decide)⟩

/-- C7 (corrected).  Every closed note satisfies `offTick ≥ onTick` —
equality is possible (see the counterexample), so the claimed strict
inequality is weakened to non-strict — provided every delta-time is
non-negative and their sum stays below `2^63`. -/
theorem c7_off_ge_on (mt : MidiTrack)
    (h1 : ∀ e ∈ mt.notes, 0 ≤ e.deltaTime)
    (h2 : (mt.notes.map (fun e => e.deltaTime)).sum < 2 ^ 63) :
    ∀ n ∈ (ToTrack mt).notes, n.onTick ≤ n.offTick := by
  have h := foldl_toTrackStep_ok mt.notes ⟨0, [], []⟩ initState_ok h1 (by simpa using h2)
  intro n hn
  exact (h.2.2.1 n hn).1

/-- Witness for `c7_off_ge_on` at the concrete event list
`c7WitnessMt`. -/
theorem c7_witness :
    (∀ e ∈ c7WitnessMt.notes, 0 ≤ e.deltaTime) ∧
    (c7WitnessMt.notes.map (fun e => e.deltaTime)).sum < 2 ^ 63 ∧
    ∀ n ∈ (ToTrack c7WitnessMt).notes, n.onTick ≤ n.offTick :=
  ⟨by decide, by decide, c7_off_ge_on c7WitnessMt (by decide) (by decide)⟩

/-- C4 (confirmed).  The event decode loop terminates on every finite
stream: any fuel above the stream length is never exhausted (each
iteration consumes at least one byte); an iteration signals termination
(Go's `done = true`) only for a meta event `FF 2F` whose VLQ payload
length decodes to 0, and a nonzero length there fails with
`invalidMetaLength`; the loop returns the event list only because some
reachable suffix of its own input decoded as that end-of-track event,
with the loop finishing exactly at that event's rest; and on an
exhausted stream the loop fails with `truncatedStream` — never a silent
stop. -/
theorem c4_loop_terminates_only_at_eot :
    (∀ (fuel : Nat) (s : List Nat), s.length < fuel → parseEventsLoop fuel s ≠ none) ∧
    (∀ (s r : List Nat), parseOneEvent s = .ok (.endOfTrack r) →
      ∃ d s2, readVariableLengthValue2 s = .ok (d, 0xFF :: 0x2F :: s2) ∧
        readVariableLengthValue2 s2 = .ok (0, r)) ∧
    (∀ (s s2 s3 : List Nat) (d len : Int),
      readVariableLengthValue2 s = .ok (d, 0xFF :: 0x2F :: s2) →
      readVariableLengthValue2 s2 = .ok (len, s3) → len ≠ 0 →
      parseOneEvent s = .error .invalidMetaLength) ∧
    (∀ (fuel : Nat) (s : List Nat) (ns : List MidiNote) (r : List Nat),
      parseEventsLoop fuel s = some (.ok (ns, r)) →
      ∃ s4, s4.IsSuffix s ∧ parseOneEvent s4 = .ok (.endOfTrack r)) ∧
    (∀ fuel : Nat, 0 < fuel →
      parseEventsLoop fuel [] = some (.error .truncatedStream)) :=
  ⟨parseEventsLoop_total, parseOneEvent_eot_shape, parseOneEvent_eot_badlen,
   parseEventsLoop_ok_eot, parseEventsLoop_empty⟩

/-- Witness for `c4_loop_terminates_only_at_eot` at concrete streams:
`00 FF 2F 00` (delta 0, end-of-track) and `00 FF 2F 01 09` (end-of-track
with length 1). -/
theorem c4_witness :
    parseEventsLoop 5 [0x00, 0xFF, 0x2F, 0x00] ≠ none ∧
    (∃ d s2, readVariableLengthValue2 [0x00, 0xFF, 0x2F, 0x00] = .ok (d, 0xFF :: 0x2F :: s2) ∧
      readVariableLengthValue2 s2 = .ok (0, [])) ∧
    parseOneEvent [0x00, 0xFF, 0x2F, 0x01, 0x09] = .error .invalidMetaLength ∧
    (∃ s4, s4.IsSuffix [0x00, 0xFF, 0x2F, 0x00] ∧
      parseOneEvent s4 = .ok (.endOfTrack [])) ∧
    parseEventsLoop 3 [] = some (.error .truncatedStream) :=
  ⟨c4_loop_terminates_only_at_eot.1 5 [0x00, 0xFF, 0x2F, 0x00] (by decide),
   c4_loop_terminates_only_at_eot.2.1 [0x00, 0xFF, 0x2F, 0x00] [] (by decide),
   c4_loop_terminates_only_at_eot.2.2.1 [0x00, 0xFF, 0x2F, 0x01, 0x09] [0x01, 0x09] [0x09] 0 1
     (by decide) (by decide) (by decide),
   c4_loop_terminates_only_at_eot.2.2.2.1 2 [0x00, 0xFF, 0x2F, 0x00] [] [] (by decide),
   c4_loop_terminates_only_at_eot.2.2.2.2 3 (by decide)⟩

/-- Decoding an encoded-core prefix accumulates exactly the encoded
value: each continuation byte contributes its seven payload bits, and no
wrap occurs while the accumulated value stays in signed-64 range. -/
theorem readVLQAux_encodeCore : ∀ (m acc : Nat) (rest : List Nat),
    acc * 128 ^ (vlqEncodeCore m).length + m < 2 ^ 63 →
    readVLQAux (Int.ofNat acc) (vlqEncodeCore m ++ rest) =
      readVLQAux (Int.ofNat (acc * 128 ^ (vlqEncodeCore m).length + m)) rest := by
  intro m
  induction m using Nat.strong_induction_on with
  | _ m ih =>
    match m with
    | 0 =>
      intro acc rest hb
      simp [vlqEncodeCore]
    | m + 1 =>
      intro acc rest hb
      have hq : (m + 1) / 128 < m + 1 := Nat.div_lt_self (Nat.succ_pos m) (by omega)
      have hqr : 128 * ((m + 1) / 128) + (m + 1) % 128 = m + 1 := Nat.div_add_mod _ _
      have hlen : (vlqEncodeCore (m + 1)).length =
          (vlqEncodeCore ((m + 1) / 128)).length + 1 := by
        rw [vlqEncodeCore]
        simp
      have hval : (acc * 128 ^ (vlqEncodeCore ((m + 1) / 128)).length + (m + 1) / 128) * 128
          + (m + 1) % 128 = acc * 128 ^ (vlqEncodeCore (m + 1)).length + (m + 1) := by
        rw [hlen, pow_succ]
        calc (acc * 128 ^ (vlqEncodeCore ((m + 1) / 128)).length + (m + 1) / 128) * 128
            + (m + 1) % 128
            = acc * (128 ^ (vlqEncodeCore ((m + 1) / 128)).length * 128)
              + (128 * ((m + 1) / 128) + (m + 1) % 128) := by ring
          _ = acc * (128 ^ (vlqEncodeCore ((m + 1) / 128)).length * 128) + (m + 1) := by
              rw [hqr]
      have hBle : acc * 128 ^ (vlqEncodeCore ((m + 1) / 128)).length + (m + 1) / 128 < 2 ^ 63 := by
        have hb2 := hb
        rw [← hval] at hb2
        set A := acc * 128 ^ (vlqEncodeCore ((m + 1) / 128)).length with hA
        omega
      have hstream : vlqEncodeCore (m + 1) ++ rest
          = vlqEncodeCore ((m + 1) / 128) ++ (((m + 1) % 128 + 128) :: rest) := by
        rw [vlqEncodeCore, List.append_assoc]
        simp
      have hacc : wrap64 (Int.ofNat (acc * 128 ^ (vlqEncodeCore ((m + 1) / 128)).length
            + (m + 1) / 128) * 128 + Int.ofNat (((m + 1) % 128 + 128) % 128)) =
          Int.ofNat (acc * 128 ^ (vlqEncodeCore (m + 1)).length + (m + 1)) := by
        have hmod : ((m + 1) % 128 + 128) % 128 = (m + 1) % 128 := by omega
        rw [hmod]
        have hpush : Int.ofNat (acc * 128 ^ (vlqEncodeCore ((m + 1) / 128)).length
              + (m + 1) / 128) * 128 + Int.ofNat ((m + 1) % 128) =
            Int.ofNat ((acc * 128 ^ (vlqEncodeCore ((m + 1) / 128)).length
              + (m + 1) / 128) * 128 + (m + 1) % 128) := by
          simp only [Int.ofNat_eq_natCast]
          push_cast
          ring
        rw [hpush, hval]
        refine wrap64_eq_self _ (Int.ofNat_nonneg _) ?_
        calc (Int.ofNat (acc * 128 ^ (vlqEncodeCore (m + 1)).length + (m + 1)) : Int)
            < Int.ofNat (2 ^ 63) := Int.ofNat_lt.mpr hb
          _ = 2 ^ 63 := by norm_num
      rw [hstream, ih ((m + 1) / 128) hq acc (((m + 1) % 128 + 128) :: rest) hBle,
        readVLQAux, if_neg (by omega), hacc]

/-- C6 (confirmed).  The decoder accumulates
`result = (result << 7) | (byte & 0x7F)` over successive bytes and stops
at the first byte with clear high bit; for every `N < 2^28`, decoding
the standard VLQ encoding of `N` yields exactly `N` and leaves the
stream positioned right after the encoding. -/
theorem c6_vlq_round_trip (N : Nat) (rest : List Nat) (h : N < 2 ^ 28) :
    readVariableLengthValue2 (vlqEncode N ++ rest) = .ok (Int.ofNat N, rest) := by
  unfold readVariableLengthValue2 vlqEncode
  rw [List.append_assoc]
  have hb : 0 * 128 ^ (vlqEncodeCore (N / 128)).length + N / 128 < 2 ^ 63 := by
    have := Nat.div_le_self N 128
    omega
  have h0 : (0 : Int) = Int.ofNat 0 := rfl
  rw [h0, readVLQAux_encodeCore (N / 128) 0 ([N % 128] ++ rest) hb]
  have hsimp : 0 * 128 ^ (vlqEncodeCore (N / 128)).length + N / 128 = N / 128 := by omega
  rw [hsimp]
  show readVLQAux (Int.ofNat (N / 128)) (N % 128 :: rest) = .ok (Int.ofNat N, rest)
  rw [readVLQAux, if_pos (by omega)]
  have hmod : N % 128 % 128 = N % 128 := by omega
  rw [hmod]
  have hpush : Int.ofNat (N / 128) * 128 + Int.ofNat (N % 128) = Int.ofNat N := by
    simp only [Int.ofNat_eq_natCast]
    omega
  rw [hpush]
  have hlt : (Int.ofNat N : Int) < 2 ^ 63 :=
    calc (Int.ofNat N : Int) < Int.ofNat (2 ^ 63) := Int.ofNat_lt.mpr (by omega)
      _ = 2 ^ 63 := by norm_num
  rw [wrap64_eq_self (Int.ofNat N) (Int.ofNat_nonneg _) hlt]

/-- Witness for `c6_vlq_round_trip` at `N = 480`, whose encoding is
`83 60`, followed by junk bytes. -/
theorem c6_witness :
    (480 < 2 ^ 28) ∧
    readVariableLengthValue2 (vlqEncode 480 ++ [0x90, 0x3C]) =
      .ok (Int.ofNat 480, [0x90, 0x3C]) :=
  ⟨by norm_num, c6_vlq_round_trip 480 [0x90, 0x3C] (by norm_num)⟩

/-- Helper to peel one element off a list of known positive length. -/
theorem list_len_succ {α : Type} {l : List α} {n : Nat} (h : l.length = n + 1) :
    ∃ a t, l = a :: t ∧ t.length = n := by
  cases l with
  | nil => simp at h
  | cons a t => exact ⟨a, t, rfl, by simpa using h⟩

/-- C5 (corrected).  The reader never validates the chunk tags: the four
header-tag bytes and the four track-tag bytes are read and skipped
without comparison, so the parse of any file is unchanged when both tags
are replaced by the correct "MThd"/"MTrk" bytes.  (The counterexample
shows a wrong-tagged file decoding successfully; the code has no
`FormatError` at all.) -/
theorem c5_tags_never_validated (tag mid ttag rest : List Nat)
    (htag : tag.length = 4) (hmid : mid.length = 10) (httag : ttag.length = 4) :
    parseMidiFile (tag ++ (mid ++ (ttag ++ rest))) =
      parseMidiFile ([77, 84, 104, 100] ++ (mid ++ ([77, 84, 114, 107] ++ rest))) := by
  obtain ⟨a1, t, rfl, ht⟩ := list_len_succ htag
  obtain ⟨a2, t2, rfl, ht2⟩ := list_len_succ ht
  obtain ⟨a3, t3, rfl, ht3⟩ := list_len_succ ht2
  obtain ⟨a4, t4, rfl, ht4⟩ := list_len_succ ht3
  rw [List.length_eq_zero] at ht4
  subst ht4
  obtain ⟨m1, u, rfl, hu⟩ := list_len_succ hmid
  obtain ⟨m2, u2, rfl, hu2⟩ := list_len_succ hu
  obtain ⟨m3, u3, rfl, hu3⟩ := list_len_succ hu2
  obtain ⟨m4, u4, rfl, hu4⟩ := list_len_succ hu3
  obtain ⟨m5, u5, rfl, hu5⟩ := list_len_succ hu4
  obtain ⟨m6, u6, rfl, hu6⟩ := list_len_succ hu5
  obtain ⟨m7, u7, rfl, hu7⟩ := list_len_succ hu6
  obtain ⟨m8, u8, rfl, hu8⟩ := list_len_succ hu7
  obtain ⟨m9, u9, rfl, hu9⟩ := list_len_succ hu8
  obtain ⟨m10, u10, rfl, hu10⟩ := list_len_succ hu9
  rw [List.length_eq_zero] at hu10
  subst hu10
  obtain ⟨b1, v, rfl, hv⟩ := list_len_succ httag
  obtain ⟨b2, v2, rfl, hv2⟩ := list_len_succ hv
  obtain ⟨b3, v3, rfl, hv3⟩ := list_len_succ hv2
  obtain ⟨b4, v4, rfl, hv4⟩ := list_len_succ hv3
  rw [List.length_eq_zero] at hv4
  subst hv4
  rfl

/-- Witness for `c5_tags_never_validated`: the wrong-tagged file
`c5cexBytes`, split at its tag positions, parses identically to the
correctly tagged file. -/
theorem c5_witness :
    parseMidiFile ([88, 88, 88, 88] ++ ([0, 0, 0, 6, 0, 0, 0, 1, 1, 224] ++
        ([89, 89, 89, 89] ++ [0, 0, 0, 13, 0x00, 0x90, 0x3C, 0x64, 0x83, 0x60,
          0x80, 0x3C, 0x00, 0x00, 0xFF, 0x2F, 0x00]))) =
      parseMidiFile ([77, 84, 104, 100] ++ ([0, 0, 0, 6, 0, 0, 0, 1, 1, 224] ++
        ([77, 84, 114, 107] ++ [0, 0, 0, 13, 0x00, 0x90, 0x3C, 0x64, 0x83, 0x60,
          0x80, 0x3C, 0x00, 0x00, 0xFF, 0x2F, 0x00]))) :=
  c5_tags_never_validated [88, 88, 88, 88] [0, 0, 0, 6, 0, 0, 0, 1, 1, 224]
    [89, 89, 89, 89]
    [0, 0, 0, 13, 0x00, 0x90, 0x3C, 0x64, 0x83, 0x60, 0x80, 0x3C, 0x00, 0x00, 0xFF, 0x2F, 0x00]
    (by decide) (by decide) (by decide)

/-- Fully explicit reduction of the header section on a 14-byte header
followed by anything: the tag, length and track-count bytes are
irrelevant, only the format and division fields matter. -/
theorem parseHeader_explicit (t1 t2 t3 t4 l1 l2 l3 l4 f1 f2 n1 n2 d1 d2 : Nat)
    (rest : List Nat) :
    parseHeader ([t1, t2, t3, t4, l1, l2, l3, l4, f1, f2, n1, n2, d1, d2] ++ rest) =
      (if f1 % 256 * 256 + f2 % 256 ≠ 0 then .error .unsupportedFormat
       else if 128 ≤ d1 % 256 then .error .unsupportedDivision
       else .ok (d1 % 256 * 256 + d2 % 256, (rest.drop 4).drop 4)) := rfl

/-- C8 (confirmed).  On a 14-byte header layout: a nonzero big-endian
format field (bytes 8-9) fails with `unsupportedFormat`; with format 0,
a division field whose first byte has bit 15 set fails with
`unsupportedDivision` (the format check runs first, so the division
statement assumes format 0); otherwise the header reader succeeds and
every successful parse carries the big-endian division value as its
ticks-per-quarter-note. -/
theorem c8_header_field_validation (t1 t2 t3 t4 l1 l2 l3 l4 f1 f2 n1 n2 d1 d2 : Nat)
    (rest : List Nat) :
    (f1 % 256 * 256 + f2 % 256 ≠ 0 →
      parseMidiFile ([t1, t2, t3, t4, l1, l2, l3, l4, f1, f2, n1, n2, d1, d2] ++ rest) =
        .error .unsupportedFormat) ∧
    (f1 % 256 * 256 + f2 % 256 = 0 → 128 ≤ d1 % 256 →
      parseMidiFile ([t1, t2, t3, t4, l1, l2, l3, l4, f1, f2, n1, n2, d1, d2] ++ rest) =
        .error .unsupportedDivision) ∧
    (f1 % 256 * 256 + f2 % 256 = 0 → d1 % 256 < 128 →
      parseHeader ([t1, t2, t3, t4, l1, l2, l3, l4, f1, f2, n1, n2, d1, d2] ++ rest) =
        .ok (d1 % 256 * 256 + d2 % 256, (rest.drop 4).drop 4)) ∧
    (∀ mt : MidiTrack,
      parseMidiFile ([t1, t2, t3, t4, l1, l2, l3, l4, f1, f2, n1, n2, d1, d2] ++ rest) =
        .ok mt → mt.ppqn = d1 % 256 * 256 + d2 % 256) := by
  refine ⟨?_, ?_, ?_, ?_⟩
  · intro h
    unfold parseMidiFile
    rw [parseHeader_explicit, if_pos h]
  · intro h hd
    unfold parseMidiFile
    rw [parseHeader_explicit, if_neg (by omega), if_pos hd]
  · intro h hd
    rw [parseHeader_explicit, if_neg (by omega), if_neg (by omega)]
  · intro mt hpm
    unfold parseMidiFile at hpm
    rw [parseHeader_explicit] at hpm
    split at hpm
    · simp at hpm
    · split at hpm
      · simp at hpm
      · rename_i x1 ppqn s7 hhead x2 ns snd hev
        split at hhead
        · simp at hhead
        · split at hhead
          · simp at hhead
          · simp only [Except.ok.injEq, Prod.mk.injEq] at hhead
            simp only [Except.ok.injEq] at hpm
            subst hpm
            exact hhead.1.symm

/-- Witness for `c8_header_field_validation`: format 1 is rejected,
division `80 E0` (bit 15 set) is rejected, and division `01 E0` yields
ticks-per-quarter-note 480 both from the header reader and through a
full successful parse. -/
theorem c8_witness :
    parseMidiFile ([77, 84, 104, 100, 0, 0, 0, 6, 0, 1, 0, 1, 1, 224] ++
        [77, 84, 114, 107]) = .error .unsupportedFormat ∧
    parseMidiFile ([77, 84, 104, 100, 0, 0, 0, 6, 0, 0, 0, 1, 0x80, 224] ++
        [77, 84, 114, 107]) = .error .unsupportedDivision ∧
    parseHeader ([77, 84, 104, 100, 0, 0, 0, 6, 0, 0, 0, 1, 1, 224] ++
        [77, 84, 114, 107, 0, 0, 0, 4, 0x00, 0xFF, 0x2F, 0x00]) =
      .ok (480, [0x00, 0xFF, 0x2F, 0x00]) ∧
    (MidiTrack.mk [] 480).ppqn = 480 :=
  ⟨(c8_header_field_validation 77 84 104 100 0 0 0 6 0 1 0 1 1 224 [77, 84, 114, 107]).1
      (by decide),
   (c8_header_field_validation 77 84 104 100 0 0 0 6 0 0 0 1 0x80 224 [77, 84, 114, 107]).2.1
      (by decide) (by decide),
   (c8_header_field_validation 77 84 104 100 0 0 0 6 0 0 0 1 1 224
      [77, 84, 114, 107, 0, 0, 0, 4, 0x00, 0xFF, 0x2F, 0x00]).2.2.1 (by decide) (by decide),
   (c8_header_field_validation 77 84 104 100 0 0 0 6 0 0 0 1 1 224
      [77, 84, 114, 107, 0, 0, 0, 4, 0x00, 0xFF, 0x2F, 0x00]).2.2.2 ⟨[], 480⟩ (by decide)⟩

/-- C10 (confirmed).  A status byte with high nibble 0x9 is decoded as a
genuine `NoteOn` whatever its velocity byte (including 0); during
reconstruction a `NoteOn` only inserts/overwrites the pending entry and
never appends a closed note; consequently an event list consisting only
of note-ons (the velocity-0 convention for endings) reconstructs to a
track with zero notes, as the concrete pipeline run on `c10Bytes`
shows. -/
theorem c10_velocity0_noteon_behaviour :
    (∀ (c note vel : Nat) (rest : List Nat), c < 16 →
      parseOneEvent (0x00 :: (0x90 + c) :: note :: vel :: rest) =
        .ok (.note ⟨0, .NoteOn, 0, note, vel⟩ rest)) ∧
    (∀ (st : RState) (e : MidiNote), e.eventType = .NoteOn →
      (toTrackStep st e).notes = st.notes) ∧
    (∀ mt : MidiTrack, (∀ e ∈ mt.notes, e.eventType = .NoteOn) →
      (ToTrack mt).notes = []) ∧
    (parseMidiFile c10Bytes).map ToTrack = .ok ⟨480, []⟩ := by
  refine ⟨?_, ?_, ?_, by decide⟩
  · intro c note vel rest hc
    have hvlq : readVariableLengthValue2 (0x00 :: (0x90 + c) :: note :: vel :: rest) =
        .ok (0, (0x90 + c) :: note :: vel :: rest) := by
      rw [readVariableLengthValue2, readVLQAux, if_pos (by omega)]
      norm_num [wrap64]
    have hb1 : ¬ (0x90 + c = 0xFF) := by omega
    have hb2 : ¬ (0x90 + c = 0xF0 ∨ 0x90 + c = 0xF7) := by omega
    have hb3 : ¬ ((0x90 + c) / 16 = 0x8) := by omega
    have hb4 : (0x90 + c) / 16 = 0x9 := by omega
    unfold parseOneEvent
    rw [hvlq]
    simp [handleChannel, hb1, hb2, hb3, hb4]
  · intro st e het
    simp [toTrackStep, het]
  · intro mt hall
    show (ToTrack mt).notes = []
    suffices h : ∀ (l : List MidiNote) (st : RState), (∀ e ∈ l, e.eventType = .NoteOn) →
        (l.foldl toTrackStep st).notes = st.notes by
      unfold ToTrack
      simpa using h mt.notes ⟨0, [], []⟩ hall
    intro l
    induction l with
    | nil => intro st h2; rfl
    | cons e rest ih =>
      intro st h2
      simp only [List.foldl_cons]
      rw [ih _ (fun e2 he2 => h2 e2 (List.mem_cons_of_mem _ he2))]
      have het := h2 e (List.mem_cons_self _ _)
      simp [toTrackStep, het]

/-- Witness for `c10_velocity0_noteon_behaviour` at concrete inputs: a
velocity-0 note-on event decodes as `NoteOn`, a `NoteOn` step keeps the
closed-note list, and a two-note-on event list reconstructs to zero
notes. -/
theorem c10_witness :
    parseOneEvent [0x00, 0x90, 60, 0, 99] = .ok (.note ⟨0, .NoteOn, 0, 60, 0⟩ [99]) ∧
    (toTrackStep ⟨0, [], []⟩ ⟨0, .NoteOn, 0, 60, 0⟩).notes = [] ∧
    (ToTrack ⟨[⟨0, .NoteOn, 0, 60, 100⟩, ⟨480, .NoteOn, 0, 60, 0⟩], 480⟩).notes = [] :=
  ⟨c10_velocity0_noteon_behaviour.1 0 60 0 [99] (by decide),
   c10_velocity0_noteon_behaviour.2.1 ⟨0, [], []⟩ ⟨0, .NoteOn, 0, 60, 0⟩ rfl,
   c10_velocity0_noteon_behaviour.2.2.1 ⟨[⟨0, .NoteOn, 0, 60, 100⟩, ⟨480, .NoteOn, 0, 60, 0⟩], 480⟩
     (by decide)⟩
